import Mathlib

/-!
Verification of the td repository excerpt: base64 encoding utilities
(`src/tdutils/td/utils/base64.cpp`), sponsored-message local identifier
allocation (`src/td/telegram/SponsoredMessageManager.cpp`), and the poll
answer coordinator / voter cache / eviction scheduler specified in `spec.md`
(whose implementation file is not part of the excerpt; only
`src/td/telegram/PollManager.h` is, so those components are modelled from
the specification).

Bytes and characters are modelled as `Nat` (C `unsigned char` values).
C bit operations are translated as: `x << k` is `x <<< k`, `x >> k` is
`x >>> k`, `x & m` is `x &&& m`, `x | y` is `x ||| y`; casts to
`unsigned char` are `% 256`.
-/

/-! ## Base64 (src/tdutils/td/utils/base64.cpp) -/

/-- Alphabet `symbols64` from base64.cpp: "ABCDEFGHIJKLMNOPQRSTUVWXYZabcdefghijklmnopqrstuvwxyz0123456789+/"
as ASCII codes. -/
def symbols64 : List Nat :=
  [65, 66, 67, 68, 69, 70, 71, 72, 73, 74, 75, 76, 77, 78, 79, 80, 81, 82, 83,
   84, 85, 86, 87, 88, 89, 90,
   97, 98, 99, 100, 101, 102, 103, 104, 105, 106, 107, 108, 109, 110, 111, 112,
   113, 114, 115, 116, 117, 118, 119, 120, 121, 122,
   48, 49, 50, 51, 52, 53, 54, 55, 56, 57, 43, 47]

/-- Alphabet `url_symbols64` from base64.cpp: same as `symbols64` but with '-' (45) and
'_' (95) in place of '+' and '/'. -/
def url_symbols64 : List Nat :=
  [65, 66, 67, 68, 69, 70, 71, 72, 73, 74, 75, 76, 77, 78, 79, 80, 81, 82, 83,
   84, 85, 86, 87, 88, 89, 90,
   97, 98, 99, 100, 101, 102, 103, 104, 105, 106, 107, 108, 109, 110, 111, 112,
   113, 114, 115, 116, 117, 118, 119, 120, 121, 122,
   48, 49, 50, 51, 52, 53, 54, 55, 56, 57, 45, 95]

/-- Table `get_character_table` from base64.cpp: the inverse table maps the i-th
alphabet character to i and every other byte to 64 (the implementation fills
the table with 64 and then assigns index i to character `characters[i]`;
the characters are pairwise distinct, so this equals the first index). -/
def char_to_value (symbols : List Nat) (c : Nat) : Nat :=
  match symbols.findIdx? (fun x => x == c) with
  | some i => i
  | none => 64

/-- Function `base64_encode` from base64.cpp, lines 37-63, as a recursion over
3-byte chunks (one iteration of the C loop handles one chunk; `left` is the
chunk size).  61 is the ASCII code of the padding character '='. -/
def base64_encode : List Nat → List Nat
  | [] => []
  | [a] =>
    let c := a <<< 16
    [symbols64.getD (c >>> 18) 0, symbols64.getD ((c >>> 12) &&& 63) 0, 61, 61]
  | [a, b] =>
    let c := a <<< 16 ||| b <<< 8
    [symbols64.getD (c >>> 18) 0, symbols64.getD ((c >>> 12) &&& 63) 0,
     symbols64.getD ((c >>> 6) &&& 63) 0, 61]
  | a :: b :: d :: rest =>
    let c := a <<< 16 ||| b <<< 8 ||| d
    symbols64.getD (c >>> 18) 0 :: symbols64.getD ((c >>> 12) &&& 63) 0 ::
    symbols64.getD ((c >>> 6) &&& 63) 0 :: symbols64.getD (c &&& 63) 0 ::
    base64_encode rest

/-- Function `base64_drop_padding` from base64.cpp, lines 65-79: the length must be a
multiple of 4, trailing '=' characters are stripped (the C `while` loop is
expressed as `dropWhile` on the reversed list), and at most 2 of them may
occur. -/
def base64_drop_padding (base64 : List Nat) : Except String (List Nat) :=
  if base64.length % 4 ≠ 0 then
    .error "Wrong string length"
  else
    let stripped := (base64.reverse.dropWhile (fun c => c == 61)).reverse
    let padding_length := base64.length - stripped.length
    if padding_length ≥ 3 then
      .error "Wrong string padding"
    else
      .ok stripped

/-- Function `base64_do_decode` from base64.cpp, lines 81-111, instantiated with the
standard character table, as a recursion over 4-character chunks (`left` is
the chunk size of one C loop iteration).  A chunk accumulates
`c |= value << ((3 - t) * 6)` and emits bytes `c >> 16`, `c >> 8`, `c`
depending on `left`, with the padding-bits checks of the source. -/
def base64_do_decode : List Nat → Except String (List Nat)
  | [] => .ok []
  | [w] =>
    let v0 := char_to_value symbols64 w
    if v0 == 64 then .error "Wrong character in the string"
    else
      let c := v0 <<< 18
      .ok [(c >>> 16) % 256, (c >>> 8) % 256, c % 256]
  | [w, x] =>
    let v0 := char_to_value symbols64 w
    let v1 := char_to_value symbols64 x
    if v0 == 64 || v1 == 64 then .error "Wrong character in the string"
    else
      let c := v0 <<< 18 ||| v1 <<< 12
      if c &&& ((1 <<< 16) - 1) ≠ 0 then .error "Wrong padding in the string"
      else .ok [(c >>> 16) % 256]
  | [w, x, y] =>
    let v0 := char_to_value symbols64 w
    let v1 := char_to_value symbols64 x
    let v2 := char_to_value symbols64 y
    if v0 == 64 || v1 == 64 || v2 == 64 then .error "Wrong character in the string"
    else
      let c := v0 <<< 18 ||| v1 <<< 12 ||| v2 <<< 6
      if c &&& ((1 <<< 8) - 1) ≠ 0 then .error "Wrong padding in the string"
      else .ok [(c >>> 16) % 256, (c >>> 8) % 256]
  | w :: x :: y :: z :: rest =>
    let v0 := char_to_value symbols64 w
    let v1 := char_to_value symbols64 x
    let v2 := char_to_value symbols64 y
    let v3 := char_to_value symbols64 z
    if v0 == 64 || v1 == 64 || v2 == 64 || v3 == 64 then
      .error "Wrong character in the string"
    else
      let c := v0 <<< 18 ||| v1 <<< 12 ||| v2 <<< 6 ||| v3
      match base64_do_decode rest with
      | .error e => .error e
      | .ok out => .ok ((c >>> 16) % 256 :: (c >>> 8) % 256 :: c % 256 :: out)

/-- Function `base64_decode` from base64.cpp, lines 113-120: drop padding, then decode
(`TRY_RESULT_ASSIGN` / `TRY_STATUS` propagate the error). -/
def base64_decode (base64 : List Nat) : Except String (List Nat) :=
  match base64_drop_padding base64 with
  | .error e => .error e
  | .ok stripped => base64_do_decode stripped

/-- Function `base64url_encode` from base64.cpp, lines 135-157: same loop as
`base64_encode` over the URL alphabet, but emitting no padding characters. -/
def base64url_encode : List Nat → List Nat
  | [] => []
  | [a] =>
    let c := a <<< 16
    [url_symbols64.getD (c >>> 18) 0, url_symbols64.getD ((c >>> 12) &&& 63) 0]
  | [a, b] =>
    let c := a <<< 16 ||| b <<< 8
    [url_symbols64.getD (c >>> 18) 0, url_symbols64.getD ((c >>> 12) &&& 63) 0,
     url_symbols64.getD ((c >>> 6) &&& 63) 0]
  | a :: b :: d :: rest =>
    let c := a <<< 16 ||| b <<< 8 ||| d
    url_symbols64.getD (c >>> 18) 0 :: url_symbols64.getD ((c >>> 12) &&& 63) 0 ::
    url_symbols64.getD ((c >>> 6) &&& 63) 0 :: url_symbols64.getD (c &&& 63) 0 ::
    base64url_encode rest

/-- The decoding loop of `base64url_decode` (base64.cpp lines 176-201), the
same chunk recursion as `base64_do_decode` but over the URL character
table. -/
def base64url_decode_loop : List Nat → Except String (List Nat)
  | [] => .ok []
  | [w] =>
    let v0 := char_to_value url_symbols64 w
    if v0 == 64 then .error "Wrong character in the string"
    else
      let c := v0 <<< 18
      .ok [(c >>> 16) % 256, (c >>> 8) % 256, c % 256]
  | [w, x] =>
    let v0 := char_to_value url_symbols64 w
    let v1 := char_to_value url_symbols64 x
    if v0 == 64 || v1 == 64 then .error "Wrong character in the string"
    else
      let c := v0 <<< 18 ||| v1 <<< 12
      if c &&& ((1 <<< 16) - 1) ≠ 0 then .error "Wrong padding in the string"
      else .ok [(c >>> 16) % 256]
  | [w, x, y] =>
    let v0 := char_to_value url_symbols64 w
    let v1 := char_to_value url_symbols64 x
    let v2 := char_to_value url_symbols64 y
    if v0 == 64 || v1 == 64 || v2 == 64 then .error "Wrong character in the string"
    else
      let c := v0 <<< 18 ||| v1 <<< 12 ||| v2 <<< 6
      if c &&& ((1 <<< 8) - 1) ≠ 0 then .error "Wrong padding in the string"
      else .ok [(c >>> 16) % 256, (c >>> 8) % 256]
  | w :: x :: y :: z :: rest =>
    let v0 := char_to_value url_symbols64 w
    let v1 := char_to_value url_symbols64 x
    let v2 := char_to_value url_symbols64 y
    let v3 := char_to_value url_symbols64 z
    if v0 == 64 || v1 == 64 || v2 == 64 || v3 == 64 then
      .error "Wrong character in the string"
    else
      let c := v0 <<< 18 ||| v1 <<< 12 ||| v2 <<< 6 ||| v3
      match base64url_decode_loop rest with
      | .error e => .error e
      | .ok out => .ok ((c >>> 16) % 256 :: (c >>> 8) % 256 :: c % 256 :: out)

/-- Function `base64url_decode` from base64.cpp, lines 159-203: strip trailing '='
(with the padding-consistency checks of lines 160-171), reject lengths
congruent to 1 mod 4, then run the decoding loop. -/
def base64url_decode (base64 : List Nat) : Except String (List Nat) :=
  let stripped := (base64.reverse.dropWhile (fun c => c == 61)).reverse
  let padding_length := base64.length - stripped.length
  if padding_length ≥ 3 ∨ (padding_length > 0 ∧ (stripped.length + padding_length) % 4 ≠ 0) then
    .error "Wrong string padding"
  else if stripped.length % 4 = 1 then
    .error "Wrong string length"
  else
    base64url_decode_loop stripped

/-! ### Auxiliary lemmas for the base64 round-trip -/

theorem or_eq_add_of_dvd_of_lt (k x y : Nat) (hx : 2 ^ k ∣ x) (hy : y < 2 ^ k) :
    x ||| y = x + y := by
  obtain ⟨m, rfl⟩ := hx
  rw [← Nat.mul_add_lt_is_or hy m]

theorem and_63_eq_mod (x : Nat) : x &&& 63 = x % 64 :=
  Nat.and_pow_two_sub_one_eq_mod x 6

theorem and_255_eq_mod (x : Nat) : x &&& ((1 <<< 8) - 1) = x % 256 :=
  Nat.and_pow_two_sub_one_eq_mod x 8

theorem and_65535_eq_mod (x : Nat) : x &&& ((1 <<< 16) - 1) = x % 65536 :=
  Nat.and_pow_two_sub_one_eq_mod x 16

theorem shiftRight_6_eq (x : Nat) : x >>> 6 = x / 64 := by
  rw [Nat.shiftRight_eq_div_pow]

theorem shiftRight_8_eq (x : Nat) : x >>> 8 = x / 256 := by
  rw [Nat.shiftRight_eq_div_pow]

theorem shiftRight_12_eq (x : Nat) : x >>> 12 = x / 4096 := by
  rw [Nat.shiftRight_eq_div_pow]

theorem shiftRight_16_eq (x : Nat) : x >>> 16 = x / 65536 := by
  rw [Nat.shiftRight_eq_div_pow]

theorem shiftRight_18_eq (x : Nat) : x >>> 18 = x / 262144 := by
  rw [Nat.shiftRight_eq_div_pow]

theorem enc1_eq (a : Nat) : a <<< 16 = a * 65536 := by
  rw [Nat.shiftLeft_eq]

theorem enc2_eq (a b : Nat) (hb : b < 256) :
    a <<< 16 ||| b <<< 8 = a * 65536 + b * 256 := by
  rw [Nat.shiftLeft_eq, Nat.shiftLeft_eq,
      or_eq_add_of_dvd_of_lt 16 (a * 2 ^ 16) (b * 2 ^ 8) ⟨a, by ring⟩ (by omega)]

theorem enc3_eq (a b d : Nat) (hb : b < 256) (hd : d < 256) :
    a <<< 16 ||| b <<< 8 ||| d = a * 65536 + b * 256 + d := by
  rw [enc2_eq a b hb,
      or_eq_add_of_dvd_of_lt 8 (a * 65536 + b * 256) d ⟨a * 256 + b, by ring⟩ (by omega)]

theorem dec2_eq (v0 v1 : Nat) (h1 : v1 < 64) :
    v0 <<< 18 ||| v1 <<< 12 = v0 * 262144 + v1 * 4096 := by
  rw [Nat.shiftLeft_eq, Nat.shiftLeft_eq,
      or_eq_add_of_dvd_of_lt 18 (v0 * 2 ^ 18) (v1 * 2 ^ 12) ⟨v0, by ring⟩ (by omega)]

theorem dec3_eq (v0 v1 v2 : Nat) (h1 : v1 < 64) (h2 : v2 < 64) :
    v0 <<< 18 ||| v1 <<< 12 ||| v2 <<< 6 = v0 * 262144 + v1 * 4096 + v2 * 64 := by
  rw [dec2_eq v0 v1 h1, Nat.shiftLeft_eq,
      or_eq_add_of_dvd_of_lt 12 (v0 * 262144 + v1 * 4096) (v2 * 2 ^ 6)
        ⟨v0 * 64 + v1, by ring⟩ (by omega)]

theorem dec4_eq (v0 v1 v2 v3 : Nat) (h1 : v1 < 64) (h2 : v2 < 64) (h3 : v3 < 64) :
    v0 <<< 18 ||| v1 <<< 12 ||| v2 <<< 6 ||| v3 =
      v0 * 262144 + v1 * 4096 + v2 * 64 + v3 := by
  rw [dec3_eq v0 v1 v2 h1 h2,
      or_eq_add_of_dvd_of_lt 6 (v0 * 262144 + v1 * 4096 + v2 * 64) v3
        ⟨v0 * 4096 + v1 * 64 + v2, by ring⟩ (by omega)]

theorem char_to_value_symbols64 : ∀ v, v < 64 →
    char_to_value symbols64 (symbols64.getD v 0) = v := by decide

theorem char_to_value_url_symbols64 : ∀ v, v < 64 →
    char_to_value url_symbols64 (url_symbols64.getD v 0) = v := by decide

theorem symbols64_getD_ne_61 (v : Nat) : symbols64.getD v 0 ≠ 61 := by
  rcases Nat.lt_or_ge v 64 with h | h
  · exact (by decide : ∀ w, w < 64 → symbols64.getD w 0 ≠ 61) v h
  · rw [List.getD_eq_getElem?_getD, List.getElem?_eq_none]
    · simp
    · have hl : symbols64.length = 64 := rfl
      omega

theorem url_symbols64_getD_ne_61 (v : Nat) : url_symbols64.getD v 0 ≠ 61 := by
  rcases Nat.lt_or_ge v 64 with h | h
  · exact (by decide : ∀ w, w < 64 → url_symbols64.getD w 0 ≠ 61) v h
  · rw [List.getD_eq_getElem?_getD, List.getElem?_eq_none]
    · simp
    · have hl : url_symbols64.length = 64 := rfl
      omega

/-- Proof-side description of `base64_encode` without the padding characters
it emits: exactly what `base64_drop_padding` recovers from an encoded
string. -/
def base64_encode_unpadded : List Nat → List Nat
  | [] => []
  | [a] =>
    let c := a <<< 16
    [symbols64.getD (c >>> 18) 0, symbols64.getD ((c >>> 12) &&& 63) 0]
  | [a, b] =>
    let c := a <<< 16 ||| b <<< 8
    [symbols64.getD (c >>> 18) 0, symbols64.getD ((c >>> 12) &&& 63) 0,
     symbols64.getD ((c >>> 6) &&& 63) 0]
  | a :: b :: d :: rest =>
    let c := a <<< 16 ||| b <<< 8 ||| d
    symbols64.getD (c >>> 18) 0 :: symbols64.getD ((c >>> 12) &&& 63) 0 ::
    symbols64.getD ((c >>> 6) &&& 63) 0 :: symbols64.getD (c &&& 63) 0 ::
    base64_encode_unpadded rest

/-- Number of '=' characters `base64_encode` appends. -/
def base64_pad_count : List Nat → Nat
  | [] => 0
  | [_] => 2
  | [_, _] => 1
  | _ :: _ :: _ :: rest => base64_pad_count rest

theorem base64_encode_eq_unpadded : ∀ s,
    base64_encode s = base64_encode_unpadded s ++ List.replicate (base64_pad_count s) 61
  | [] => rfl
  | [_] => rfl
  | [_, _] => rfl
  | a :: b :: d :: rest => by
    simp only [base64_encode, base64_encode_unpadded, base64_pad_count,
      base64_encode_eq_unpadded rest, List.cons_append]

theorem base64_pad_count_le : ∀ s, base64_pad_count s ≤ 2
  | [] => by simp [base64_pad_count]
  | [_] => by simp [base64_pad_count]
  | [_, _] => by simp [base64_pad_count]
  | _ :: _ :: _ :: rest => base64_pad_count_le rest

theorem base64_encode_unpadded_ne_61 : ∀ s, ∀ x ∈ base64_encode_unpadded s, x ≠ 61
  | [], x, hx => by simp [base64_encode_unpadded] at hx
  | [a], x, hx => by
    simp only [base64_encode_unpadded, List.mem_cons, List.not_mem_nil, or_false] at hx
    rcases hx with h | h <;> (subst h; apply symbols64_getD_ne_61)
  | [a, b], x, hx => by
    simp only [base64_encode_unpadded, List.mem_cons, List.not_mem_nil, or_false] at hx
    rcases hx with h | h | h <;> (subst h; apply symbols64_getD_ne_61)
  | a :: b :: d :: rest, x, hx => by
    simp only [base64_encode_unpadded, List.mem_cons] at hx
    rcases hx with h | h | h | h | h
    · subst h; apply symbols64_getD_ne_61
    · subst h; apply symbols64_getD_ne_61
    · subst h; apply symbols64_getD_ne_61
    · subst h; apply symbols64_getD_ne_61
    · exact base64_encode_unpadded_ne_61 rest x h

theorem base64_encode_length_mod4 : ∀ s, (base64_encode s).length % 4 = 0
  | [] => rfl
  | [_] => by simp [base64_encode]
  | [_, _] => by simp [base64_encode]
  | a :: b :: d :: rest => by
    have ih := base64_encode_length_mod4 rest
    simp only [base64_encode, List.length_cons]
    omega

theorem strip_append_replicate (U : List Nat) (k : Nat) (hU : ∀ x ∈ U, x ≠ 61) :
    ((U ++ List.replicate k 61).reverse.dropWhile (fun c => c == 61)).reverse = U := by
  rw [List.reverse_append, List.reverse_replicate]
  have hrep : ∀ n, List.dropWhile (fun c => c == 61) (List.replicate n 61 ++ U.reverse) =
      List.dropWhile (fun c => c == 61) U.reverse := by
    intro n
    induction n with
    | zero => simp
    | succ n ih =>
      rw [List.replicate_succ, List.cons_append, List.dropWhile_cons_of_pos (by simp)]
      exact ih
  rw [hrep k]
  have hid : List.dropWhile (fun c => c == 61) U.reverse = U.reverse := by
    cases h : U.reverse with
    | nil => simp
    | cons a t =>
      have ha : a ∈ U := by
        rw [← List.mem_reverse, h]
        exact List.mem_cons_self a t
      rw [List.dropWhile_cons_of_neg]
      simp only [beq_iff_eq]
      exact hU a ha
  rw [hid, List.reverse_reverse]

theorem base64_drop_padding_encode (s : List Nat) :
    base64_drop_padding (base64_encode s) = .ok (base64_encode_unpadded s) := by
  have hmod := base64_encode_length_mod4 s
  have hk := base64_pad_count_le s
  have hlen := congrArg List.length (base64_encode_eq_unpadded s)
  simp only [List.length_append, List.length_replicate] at hlen
  simp only [base64_drop_padding]
  rw [if_neg (by omega)]
  rw [base64_encode_eq_unpadded s,
      strip_append_replicate _ _ (base64_encode_unpadded_ne_61 s)]
  simp only [List.length_append, List.length_replicate]
  rw [if_neg (by omega)]

theorem base64_do_decode_cons4 (v0 v1 v2 v3 : Nat) (h0 : v0 < 64) (h1 : v1 < 64)
    (h2 : v2 < 64) (h3 : v3 < 64) (rest out : List Nat)
    (hrest : base64_do_decode rest = .ok out) :
    base64_do_decode (symbols64.getD v0 0 :: symbols64.getD v1 0 ::
        symbols64.getD v2 0 :: symbols64.getD v3 0 :: rest) =
      .ok (((v0 * 262144 + v1 * 4096 + v2 * 64 + v3) / 65536) % 256 ::
           ((v0 * 262144 + v1 * 4096 + v2 * 64 + v3) / 256) % 256 ::
           ((v0 * 262144 + v1 * 4096 + v2 * 64 + v3) % 256) :: out) := by
  simp only [base64_do_decode]
  rw [char_to_value_symbols64 v0 h0, char_to_value_symbols64 v1 h1,
      char_to_value_symbols64 v2 h2, char_to_value_symbols64 v3 h3]
  rw [if_neg (by simp only [Bool.or_eq_true, beq_iff_eq]; omega)]
  rw [hrest, dec4_eq v0 v1 v2 v3 h1 h2 h3, shiftRight_16_eq, shiftRight_8_eq]

theorem base64_do_decode_pair (v0 v1 : Nat) (h0 : v0 < 64) (h1 : v1 < 64)
    (hpad : (v0 * 262144 + v1 * 4096) % 65536 = 0) :
    base64_do_decode [symbols64.getD v0 0, symbols64.getD v1 0] =
      .ok [((v0 * 262144 + v1 * 4096) / 65536) % 256] := by
  simp only [base64_do_decode]
  rw [char_to_value_symbols64 v0 h0, char_to_value_symbols64 v1 h1]
  rw [if_neg (by simp only [Bool.or_eq_true, beq_iff_eq]; omega)]
  rw [dec2_eq v0 v1 h1, and_65535_eq_mod]
  rw [if_neg (by omega), shiftRight_16_eq]

theorem base64_do_decode_triple (v0 v1 v2 : Nat) (h0 : v0 < 64) (h1 : v1 < 64)
    (h2 : v2 < 64) (hpad : (v0 * 262144 + v1 * 4096 + v2 * 64) % 256 = 0) :
    base64_do_decode [symbols64.getD v0 0, symbols64.getD v1 0, symbols64.getD v2 0] =
      .ok [((v0 * 262144 + v1 * 4096 + v2 * 64) / 65536) % 256,
           ((v0 * 262144 + v1 * 4096 + v2 * 64) / 256) % 256] := by
  simp only [base64_do_decode]
  rw [char_to_value_symbols64 v0 h0, char_to_value_symbols64 v1 h1,
      char_to_value_symbols64 v2 h2]
  rw [if_neg (by simp only [Bool.or_eq_true, beq_iff_eq]; omega)]
  rw [dec3_eq v0 v1 v2 h1 h2, and_255_eq_mod]
  rw [if_neg (by omega), shiftRight_16_eq, shiftRight_8_eq]

theorem base64_do_decode_unpadded : ∀ s, (∀ x ∈ s, x < 256) →
    base64_do_decode (base64_encode_unpadded s) = .ok s
  | [], _ => rfl
  | [a], h => by
    have ha : a < 256 := h a (by simp)
    simp only [base64_encode_unpadded]
    simp only [enc1_eq, shiftRight_18_eq, shiftRight_12_eq, and_63_eq_mod]
    rw [base64_do_decode_pair _ _ (by omega) (by omega) (by omega)]
    simp only [Except.ok.injEq, List.cons.injEq, and_true]
    omega
  | [a, b], h => by
    have ha : a < 256 := h a (by simp)
    have hb : b < 256 := h b (by simp)
    simp only [base64_encode_unpadded]
    simp only [enc2_eq a b hb, shiftRight_18_eq, shiftRight_12_eq, shiftRight_6_eq,
      and_63_eq_mod]
    rw [base64_do_decode_triple _ _ _ (by omega) (by omega) (by omega) (by omega)]
    simp only [Except.ok.injEq, List.cons.injEq, and_true]
    omega
  | a :: b :: d :: rest, h => by
    have ha : a < 256 := h a (by simp)
    have hb : b < 256 := h b (by simp)
    have hd : d < 256 := h d (by simp)
    have ih := base64_do_decode_unpadded rest (fun x hx => h x (by simp [hx]))
    simp only [base64_encode_unpadded]
    simp only [enc3_eq a b d hb hd, shiftRight_18_eq, shiftRight_12_eq,
      shiftRight_6_eq, and_63_eq_mod]
    rw [base64_do_decode_cons4 _ _ _ _ (by omega) (by omega) (by omega) (by omega)
      _ _ ih]
    simp only [Except.ok.injEq, List.cons.injEq, and_true]
    omega

theorem base64url_decode_loop_cons4 (v0 v1 v2 v3 : Nat) (h0 : v0 < 64) (h1 : v1 < 64)
    (h2 : v2 < 64) (h3 : v3 < 64) (rest out : List Nat)
    (hrest : base64url_decode_loop rest = .ok out) :
    base64url_decode_loop (url_symbols64.getD v0 0 :: url_symbols64.getD v1 0 ::
        url_symbols64.getD v2 0 :: url_symbols64.getD v3 0 :: rest) =
      .ok (((v0 * 262144 + v1 * 4096 + v2 * 64 + v3) / 65536) % 256 ::
           ((v0 * 262144 + v1 * 4096 + v2 * 64 + v3) / 256) % 256 ::
           ((v0 * 262144 + v1 * 4096 + v2 * 64 + v3) % 256) :: out) := by
  simp only [base64url_decode_loop]
  rw [char_to_value_url_symbols64 v0 h0, char_to_value_url_symbols64 v1 h1,
      char_to_value_url_symbols64 v2 h2, char_to_value_url_symbols64 v3 h3]
  rw [if_neg (by simp only [Bool.or_eq_true, beq_iff_eq]; omega)]
  rw [hrest, dec4_eq v0 v1 v2 v3 h1 h2 h3, shiftRight_16_eq, shiftRight_8_eq]

theorem base64url_decode_loop_pair (v0 v1 : Nat) (h0 : v0 < 64) (h1 : v1 < 64)
    (hpad : (v0 * 262144 + v1 * 4096) % 65536 = 0) :
    base64url_decode_loop [url_symbols64.getD v0 0, url_symbols64.getD v1 0] =
      .ok [((v0 * 262144 + v1 * 4096) / 65536) % 256] := by
  simp only [base64url_decode_loop]
  rw [char_to_value_url_symbols64 v0 h0, char_to_value_url_symbols64 v1 h1]
  rw [if_neg (by simp only [Bool.or_eq_true, beq_iff_eq]; omega)]
  rw [dec2_eq v0 v1 h1, and_65535_eq_mod]
  rw [if_neg (by omega), shiftRight_16_eq]

theorem base64url_decode_loop_triple (v0 v1 v2 : Nat) (h0 : v0 < 64) (h1 : v1 < 64)
    (h2 : v2 < 64) (hpad : (v0 * 262144 + v1 * 4096 + v2 * 64) % 256 = 0) :
    base64url_decode_loop
        [url_symbols64.getD v0 0, url_symbols64.getD v1 0, url_symbols64.getD v2 0] =
      .ok [((v0 * 262144 + v1 * 4096 + v2 * 64) / 65536) % 256,
           ((v0 * 262144 + v1 * 4096 + v2 * 64) / 256) % 256] := by
  simp only [base64url_decode_loop]
  rw [char_to_value_url_symbols64 v0 h0, char_to_value_url_symbols64 v1 h1,
      char_to_value_url_symbols64 v2 h2]
  rw [if_neg (by simp only [Bool.or_eq_true, beq_iff_eq]; omega)]
  rw [dec3_eq v0 v1 v2 h1 h2, and_255_eq_mod]
  rw [if_neg (by omega), shiftRight_16_eq, shiftRight_8_eq]

theorem base64url_decode_loop_encode : ∀ s, (∀ x ∈ s, x < 256) →
    base64url_decode_loop (base64url_encode s) = .ok s
  | [], _ => rfl
  | [a], h => by
    have ha : a < 256 := h a (by simp)
    simp only [base64url_encode]
    simp only [enc1_eq, shiftRight_18_eq, shiftRight_12_eq, and_63_eq_mod]
    rw [base64url_decode_loop_pair _ _ (by omega) (by omega) (by omega)]
    simp only [Except.ok.injEq, List.cons.injEq, and_true]
    omega
  | [a, b], h => by
    have ha : a < 256 := h a (by simp)
    have hb : b < 256 := h b (by simp)
    simp only [base64url_encode]
    simp only [enc2_eq a b hb, shiftRight_18_eq, shiftRight_12_eq, shiftRight_6_eq,
      and_63_eq_mod]
    rw [base64url_decode_loop_triple _ _ _ (by omega) (by omega) (by omega) (by omega)]
    simp only [Except.ok.injEq, List.cons.injEq, and_true]
    omega
  | a :: b :: d :: rest, h => by
    have ha : a < 256 := h a (by simp)
    have hb : b < 256 := h b (by simp)
    have hd : d < 256 := h d (by simp)
    have ih := base64url_decode_loop_encode rest (fun x hx => h x (by simp [hx]))
    simp only [base64url_encode]
    simp only [enc3_eq a b d hb hd, shiftRight_18_eq, shiftRight_12_eq,
      shiftRight_6_eq, and_63_eq_mod]
    rw [base64url_decode_loop_cons4 _ _ _ _ (by omega) (by omega) (by omega) (by omega)
      _ _ ih]
    simp only [Except.ok.injEq, List.cons.injEq, and_true]
    omega

theorem base64url_encode_ne_61 : ∀ s, ∀ x ∈ base64url_encode s, x ≠ 61
  | [], x, hx => by simp [base64url_encode] at hx
  | [a], x, hx => by
    simp only [base64url_encode, List.mem_cons, List.not_mem_nil, or_false] at hx
    rcases hx with h | h <;> (subst h; apply url_symbols64_getD_ne_61)
  | [a, b], x, hx => by
    simp only [base64url_encode, List.mem_cons, List.not_mem_nil, or_false] at hx
    rcases hx with h | h | h <;> (subst h; apply url_symbols64_getD_ne_61)
  | a :: b :: d :: rest, x, hx => by
    simp only [base64url_encode, List.mem_cons] at hx
    rcases hx with h | h | h | h | h
    · subst h; apply url_symbols64_getD_ne_61
    · subst h; apply url_symbols64_getD_ne_61
    · subst h; apply url_symbols64_getD_ne_61
    · subst h; apply url_symbols64_getD_ne_61
    · exact base64url_encode_ne_61 rest x h

theorem base64url_encode_length_mod4 : ∀ s, (base64url_encode s).length % 4 ≠ 1
  | [] => by simp [base64url_encode]
  | [_] => by simp [base64url_encode]
  | [_, _] => by simp [base64url_encode]
  | a :: b :: d :: rest => by
    have ih := base64url_encode_length_mod4 rest
    simp only [base64url_encode, List.length_cons]
    omega

theorem base64url_decode_encode (s : List Nat) (h : ∀ x ∈ s, x < 256) :
    base64url_decode (base64url_encode s) = .ok s := by
  have hstrip : ((base64url_encode s).reverse.dropWhile (fun c => c == 61)).reverse =
      base64url_encode s := by
    have hs := strip_append_replicate (base64url_encode s) 0 (base64url_encode_ne_61 s)
    simpa using hs
  have hlen := base64url_encode_length_mod4 s
  simp only [base64url_decode]
  rw [hstrip]
  rw [if_neg (by omega)]
  rw [if_neg (by omega)]
  exact base64url_decode_loop_encode s h

/-- C9: for every byte string `s`, `base64_decode (base64_encode s)` returns
`Ok` with exactly `s`, and `base64url_decode (base64url_encode s)` returns
`Ok` with exactly `s`: encode-then-decode is the identity for both the
standard and the URL-safe alphabet. -/
theorem base64_roundtrip (s : List Nat) (h : ∀ x ∈ s, x < 256) :
    base64_decode (base64_encode s) = .ok s ∧
      base64url_decode (base64url_encode s) = .ok s := by
  constructor
  · simp only [base64_decode]
    rw [base64_drop_padding_encode s]
    exact base64_do_decode_unpadded s h
  · exact base64url_decode_encode s h

/-- Witness for C9 at the concrete byte string [77, 97, 110, 0, 255]. -/
theorem base64_roundtrip_witness :
    base64_decode (base64_encode [77, 97, 110, 0, 255]) = .ok [77, 97, 110, 0, 255] ∧
      base64url_decode (base64url_encode [77, 97, 110, 0, 255]) =
        .ok [77, 97, 110, 0, 255] :=
  base64_roundtrip [77, 97, 110, 0, 255] (by decide)

/-! ## Sponsored message local identifiers
(src/td/telegram/SponsoredMessageManager.cpp, on_get_dialog_sponsored_messages) -/

/-- One allocation step from
`SponsoredMessageManager::on_get_dialog_sponsored_messages` (lines 277-284):
`auto local_id = ++current_sponsored_message_id_ + MessageId::max().get();`
followed by the overflow guard that resets the counter to 1 and the
identifier to `MessageId::max().get() + 1` when `local_id >= (1ll << 52)`.
Returns (new counter value, synthesized identifier).  `msg_id_max` stands for
`MessageId::max().get()`, whose definition (MessageId.h) is outside the
excerpt, so it is kept as a parameter. -/
def allocate_sponsored_message_id (msg_id_max counter : Int) : Int × Int :=
  let c := counter + 1
  let local_id := c + msg_id_max
  if local_id ≥ 2 ^ 52 then (1, msg_id_max + 1)
  else (c, local_id)

/-- The identifiers produced by `n` successive allocations starting from a
given counter value (the loop over `sponsored_messages->messages_` filling
one dialog's cache, which starts empty). -/
def sponsored_message_ids (msg_id_max : Int) : Int → Nat → List Int
  | _, 0 => []
  | counter, n + 1 =>
    let r := allocate_sponsored_message_id msg_id_max counter
    r.2 :: sponsored_message_ids msg_id_max r.1 n

theorem sponsored_ids_closed (M C : Int) (hC : C = 2 ^ 52 - 1 - M) (hC1 : 1 ≤ C) :
    ∀ (n : Nat) (k : Int), 0 ≤ k → k ≤ C → (n : Int) + k ≤ 2 * C →
    sponsored_message_ids M k n =
      (List.range n).map (fun (i : Nat) =>
        (if k + (i : Int) + 1 ≤ C then k + (i : Int) + 1 else k + (i : Int) + 1 - C) + M)
  | 0, k, _, _, _ => by simp [sponsored_message_ids]
  | n + 1, k, h0, h1, h2 => by
    simp only [sponsored_message_ids, allocate_sponsored_message_id]
    rcases eq_or_lt_of_le h1 with heq | hlt
    · rw [if_pos (by omega)]
      rw [sponsored_ids_closed M C hC hC1 n 1 (by omega) (by omega) (by omega)]
      rw [List.range_succ_eq_map]
      simp only [List.map_cons, List.map_map]
      congr 1
      · rw [if_neg (by push_cast; omega)]
        push_cast
        omega
      · apply List.map_congr_left
        intro i hi
        have hin : i < n := List.mem_range.mp hi
        simp only [Function.comp_apply]
        push_cast
        split_ifs <;> omega
    · rw [if_neg (by omega)]
      rw [sponsored_ids_closed M C hC hC1 n (k + 1) (by omega) (by omega) (by omega)]
      rw [List.range_succ_eq_map]
      simp only [List.map_cons, List.map_map]
      congr 1
      · rw [if_pos (by push_cast; omega)]
        push_cast
        omega
      · apply List.map_congr_left
        intro i hi
        have hin : i < n := List.mem_range.mp hi
        simp only [Function.comp_apply]
        push_cast
        split_ifs <;> omega

/-- C10: every ephemeral local identifier synthesized for a sponsored message
is strictly greater than `MessageId::max().get()` and strictly less than
`2 ^ 52`, even across counter overflow (which resets the counter to 1), and
the identifiers allocated while filling one dialog's cache are pairwise
distinct.  `M` stands for `MessageId::max().get()` and `k` for the current
counter value; one cache fill allocates at most `2 ^ 52 - 1 - M` identifiers
(the number of distinct identifiers the scheme admits). -/
theorem sponsored_message_ids_bounds_nodup (M k : Int) (n : Nat)
    (hM : 0 ≤ M) (hM2 : M + 2 ≤ 2 ^ 52) (h0 : 0 ≤ k) (h1 : k ≤ 2 ^ 52 - 1 - M)
    (hn : (n : Int) ≤ 2 ^ 52 - 1 - M) :
    (∀ i ∈ sponsored_message_ids M k n, M < i ∧ i < 2 ^ 52) ∧
      (sponsored_message_ids M k n).Nodup := by
  have hC1 : 1 ≤ 2 ^ 52 - 1 - M := by omega
  rw [sponsored_ids_closed M (2 ^ 52 - 1 - M) rfl hC1 n k h0 h1 (by omega)]
  constructor
  · intro i hi
    simp only [List.mem_map, List.mem_range] at hi
    obtain ⟨j, hj, rfl⟩ := hi
    have hj2 : (j : Int) < n := by exact_mod_cast hj
    split_ifs <;> omega
  · apply List.Nodup.map_on _ (List.nodup_range n)
    intro i hi j hj hij
    have hi2 : (i : Int) < n := by exact_mod_cast List.mem_range.mp hi
    have hj2 : (j : Int) < n := by exact_mod_cast List.mem_range.mp hj
    have : (i : Int) = j := by split_ifs at hij <;> omega
    exact_mod_cast this

/-- Witness for C10 with the real `MessageId::max().get()` value
`((2 ^ 30 - 1) * 2 ^ 20 = 1125899905794048)`, counter 0 and 2 allocations. -/
theorem sponsored_message_ids_witness :
    (∀ i ∈ sponsored_message_ids 1125899905794048 0 2,
        1125899905794048 < i ∧ i < 2 ^ 52) ∧
      (sponsored_message_ids 1125899905794048 0 2).Nodup :=
  sponsored_message_ids_bounds_nodup 1125899905794048 0 2 (by norm_num) (by norm_num)
    (by norm_num) (by norm_num) (by norm_num)

/-! ## Poll Answer Coordinator

Modelled from the spec: the implementation (`PollManager.cpp`) is not part
of the excerpt, only its header `src/td/telegram/PollManager.h`; the state
machine below follows spec.md section 4.2 ("Answer Coordinator"), keeping
the field names of `PollManager::PendingPollAnswer` from the header.  All
definitions concern one poll (the coordinator is per poll). -/

/-- Outcome of a remote vote call, as it reaches the waiting callbacks. -/
inductive VoteOutcome
  | success
  | failure (code : Nat)
deriving DecidableEq, Repr

/-- Modelled from the spec: the in-flight optimistic vote submission of one
poll (spec.md section 3, "Pending answer"), mirroring
`PollManager::PendingPollAnswer` (PollManager.h lines 227-233): selected
options, waiting callbacks (callers identified by `Nat`), generation number,
recovery-log entry identifier.  The cancellation handle `query_ref_` is
modelled by the stale-generation discard in the step function. -/
structure PendingPollAnswer where
  options_ : List String
  promises_ : List Nat
  generation_ : Nat
  log_event_id_ : Nat
deriving DecidableEq, Repr

/-- Modelled from the spec: the Answer Coordinator state of one poll:
*Idle* (no pending answer) or *Submitting(g)* (a pending answer of
generation g), together with the last generation ever allocated for the
poll and a counter for recovery-log entry identifiers. -/
structure AnswerCoordinator where
  pending_answer : Option PendingPollAnswer
  last_generation : Nat
  log_counter : Nat
deriving DecidableEq, Repr

/-- The coordinator state of a freshly created poll: Idle, no generation
allocated yet. -/
def ac_init : AnswerCoordinator :=
  { pending_answer := none, last_generation := 0, log_counter := 0 }

/-- Events processed by the coordinator: a vote request by a caller, or a
network response for a given generation. -/
inductive AcEvent
  | vote (options : List String) (caller : Nat)
  | response (generation : Nat) (res : VoteOutcome)
deriving DecidableEq, Repr

/-- Observable effects of one coordinator step: callbacks resolved (caller,
generation whose outcome is delivered, outcome), remote calls issued
(generation, options), recovery-log entries removed. -/
structure StepOut where
  resolved : List (Nat × Nat × VoteOutcome)
  issued : List (Nat × List String)
  removed_log : List Nat
deriving DecidableEq, Repr

/-- Modelled from the spec: one transition of the Answer Coordinator
(spec.md section 4.2).  A vote request allocates generation `last + 1`,
writes a recovery-log entry, carries forward the callbacks of a superseded
pending answer, and issues the remote call; a network response for the
current generation resolves all waiting callbacks with its outcome, removes
the log entry and returns to Idle, while a response for a stale generation
is discarded silently. -/
def ac_step (st : AnswerCoordinator) (e : AcEvent) : AnswerCoordinator × StepOut :=
  match e with
  | .vote opts caller =>
    let carried := match st.pending_answer with
      | some p => p.promises_
      | none => []
    let superseded_log := match st.pending_answer with
      | some p => [p.log_event_id_]
      | none => []
    let g := st.last_generation + 1
    let log_id := st.log_counter + 1
    ({ pending_answer := some
         { options_ := opts, promises_ := carried ++ [caller],
           generation_ := g, log_event_id_ := log_id },
       last_generation := g, log_counter := log_id },
     { resolved := [], issued := [(g, opts)], removed_log := superseded_log })
  | .response g res =>
    match st.pending_answer with
    | some p =>
      if g = p.generation_ then
        ({ st with pending_answer := none },
         { resolved := p.promises_.map (fun cb => (cb, g, res)), issued := [],
           removed_log := [p.log_event_id_] })
      else
        (st, { resolved := [], issued := [], removed_log := [] })
    | none => (st, { resolved := [], issued := [], removed_log := [] })

/-- The coordinator state after processing a list of events. -/
def ac_exec (st : AnswerCoordinator) : List AcEvent → AnswerCoordinator
  | [] => st
  | e :: es => ac_exec (ac_step st e).1 es

/-- The outputs emitted while processing a list of events, in order. -/
def ac_outputs (st : AnswerCoordinator) : List AcEvent → List StepOut
  | [] => []
  | e :: es => (ac_step st e).2 :: ac_outputs (ac_step st e).1 es

/-- All callback resolutions emitted while processing a list of events. -/
def ac_resolutions (st : AnswerCoordinator) (evs : List AcEvent) :
    List (Nat × Nat × VoteOutcome) :=
  (ac_outputs st evs).flatMap (fun o => o.resolved)

/-- All generations issued to the network while processing a list of
events. -/
def ac_issued_gens (st : AnswerCoordinator) (evs : List AcEvent) : List Nat :=
  ((ac_outputs st evs).flatMap (fun o => o.issued)).map (fun c => c.1)

/-- A sequence of vote requests as coordinator events. -/
def vote_events (vs : List (List String × Nat)) : List AcEvent :=
  vs.map (fun v => .vote v.1 v.2)

/-- A sequence of network responses as coordinator events. -/
def response_events (rs : List (Nat × VoteOutcome)) : List AcEvent :=
  rs.map (fun r => .response r.1 r.2)

theorem ac_outputs_append (xs ys : List AcEvent) : ∀ st,
    ac_outputs st (xs ++ ys) = ac_outputs st xs ++ ac_outputs (ac_exec st xs) ys := by
  induction xs with
  | nil => intro st; simp [ac_outputs, ac_exec]
  | cons e es ih =>
    intro st
    simp only [List.cons_append, ac_outputs, ac_exec, List.append_eq, ih]

theorem ac_resolutions_append (xs ys : List AcEvent) (st : AnswerCoordinator) :
    ac_resolutions st (xs ++ ys) =
      ac_resolutions st xs ++ ac_resolutions (ac_exec st xs) ys := by
  simp [ac_resolutions, ac_outputs_append]

theorem ac_resolutions_vote_events : ∀ (vs : List (List String × Nat)) st,
    ac_resolutions st (vote_events vs) = []
  | [], st => rfl
  | v :: vs, st => by
    simp only [vote_events, List.map_cons, ac_resolutions, ac_outputs, ac_step,
      List.flatMap_cons]
    exact ac_resolutions_vote_events vs _

theorem ac_resolutions_responses_idle : ∀ (rs : List (Nat × VoteOutcome)) st,
    st.pending_answer = none → ac_resolutions st (response_events rs) = []
  | [], st, _ => rfl
  | r :: rs, st, h => by
    simp only [response_events, List.map_cons, ac_resolutions, ac_outputs, ac_step, h,
      List.flatMap_cons]
    exact ac_resolutions_responses_idle rs st h

theorem ac_resolutions_responses_pending :
    ∀ (rs : List (Nat × VoteOutcome)) (st : AnswerCoordinator) (p : PendingPollAnswer),
    st.pending_answer = some p →
    ac_resolutions st (response_events rs) =
      match rs.find? (fun r => r.1 == p.generation_) with
      | some r => p.promises_.map (fun cb => (cb, p.generation_, r.2))
      | none => []
  | [], st, p, h => rfl
  | r :: rs, st, p, h => by
    by_cases hr : r.1 = p.generation_
    · simp only [response_events, List.map_cons, ac_resolutions, ac_outputs, ac_step, h,
        if_pos hr, List.flatMap_cons]
      have htail : ac_resolutions { st with pending_answer := none }
          (response_events rs) = [] :=
        ac_resolutions_responses_idle rs _ rfl
      simp only [ac_resolutions, response_events] at htail
      rw [htail, List.find?_cons_of_pos _ (by simpa using hr), hr]
      simp
    · simp only [response_events, List.map_cons, ac_resolutions, ac_outputs, ac_step, h,
        if_neg hr, List.flatMap_cons]
      rw [List.find?_cons_of_neg _ (by simpa using hr)]
      exact ac_resolutions_responses_pending rs st p h

theorem ac_exec_vote_events : ∀ (vs : List (List String × Nat)) (st : AnswerCoordinator),
    vs ≠ [] →
    ∃ opts, ac_exec st (vote_events vs) =
      { pending_answer := some
          { options_ := opts,
            promises_ :=
              (match st.pending_answer with | some p => p.promises_ | none => []) ++
                vs.map (fun v => v.2),
            generation_ := st.last_generation + vs.length,
            log_event_id_ := st.log_counter + vs.length },
        last_generation := st.last_generation + vs.length,
        log_counter := st.log_counter + vs.length }
  | [v], st, _ => by
    refine ⟨v.1, ?_⟩
    simp [vote_events, ac_exec, ac_step]
  | v :: v2 :: vs, st, _ => by
    obtain ⟨opts, ih⟩ :=
      ac_exec_vote_events (v2 :: vs) (ac_step st (.vote v.1 v.2)).1 (by simp)
    refine ⟨opts, ?_⟩
    simp only [vote_events, List.map_cons] at ih ⊢
    rw [ac_exec, ih]
    simp only [ac_step]
    simp only [AnswerCoordinator.mk.injEq, PendingPollAnswer.mk.injEq, Option.some.injEq,
      List.length_cons, List.append_assoc, List.singleton_append, List.cons_append,
      List.nil_append, true_and, and_true]
    omega

theorem ac_exec_vote_events_init (vs : List (List String × Nat)) (h : vs ≠ []) :
    ∃ opts, ac_exec ac_init (vote_events vs) =
      { pending_answer := some
          { options_ := opts, promises_ := vs.map (fun v => v.2),
            generation_ := vs.length, log_event_id_ := vs.length },
        last_generation := vs.length, log_counter := vs.length } := by
  obtain ⟨opts, hst⟩ := ac_exec_vote_events vs ac_init h
  refine ⟨opts, ?_⟩
  simpa [ac_init] using hst

/-- C1: for any nonempty sequence of successive vote submissions on a poll
and any sequence of network responses arriving in any order, the observable
callback resolutions are exactly: if a response for the latest-issued
generation (= the number of submissions) arrives, every caller that
requested any of the votes — including callers of superseded submissions,
whose callbacks were carried forward — observes that single outcome; no
resolution ever delivers the outcome of a superseded generation. -/
theorem poll_latest_submission_wins (vs : List (List String × Nat))
    (rs : List (Nat × VoteOutcome)) (h : vs ≠ []) :
    ac_resolutions ac_init (vote_events vs ++ response_events rs) =
      match rs.find? (fun r => r.1 == vs.length) with
      | some r => vs.map (fun v => (v.2, vs.length, r.2))
      | none => [] := by
  obtain ⟨opts, hst⟩ := ac_exec_vote_events_init vs h
  rw [ac_resolutions_append, ac_resolutions_vote_events, List.nil_append]
  have hp : (ac_exec ac_init (vote_events vs)).pending_answer = some
      { options_ := opts, promises_ := vs.map (fun v => v.2),
        generation_ := vs.length, log_event_id_ := vs.length } := by
    rw [hst]
  rw [ac_resolutions_responses_pending rs _ _ hp]
  cases hf : rs.find? (fun r => r.1 == vs.length) with
  | none => simp
  | some r => simp [List.map_map, Function.comp]

/-- Witness for C1: two successive votes (callers 10 and 11), the stale
response for generation 1 arriving first, then the response for
generation 2; both callers observe only generation 2's outcome. -/
theorem poll_latest_submission_wins_witness :
    ac_resolutions ac_init
        (vote_events [(["a"], 10), (["b"], 11)] ++
          response_events [(1, .success), (2, .failure 5)]) =
      match [(1, VoteOutcome.success), (2, VoteOutcome.failure 5)].find?
          (fun r => r.1 == [((["a"] : List String), 10), (["b"], 11)].length) with
      | some r => [((["a"] : List String), 10), (["b"], 11)].map
          (fun v => (v.2, [((["a"] : List String), 10), (["b"], 11)].length, r.2))
      | none => [] :=
  poll_latest_submission_wins [(["a"], 10), (["b"], 11)]
    [(1, .success), (2, .failure 5)] (by simp)

/-- Invariant of the coordinator: the pending answer, when present, carries
the most recently allocated generation. -/
def ac_inv (st : AnswerCoordinator) : Prop :=
  ∀ p, st.pending_answer = some p → p.generation_ = st.last_generation

theorem ac_inv_init : ac_inv ac_init := by
  intro p h
  simp [ac_init] at h

theorem ac_step_response_last_generation (st : AnswerCoordinator) (g : Nat)
    (res : VoteOutcome) :
    (ac_step st (.response g res)).1.last_generation = st.last_generation := by
  cases hps : st.pending_answer with
  | none => simp [ac_step, hps]
  | some q =>
    by_cases hg : g = q.generation_
    · simp [ac_step, hps, if_pos hg]
    · simp [ac_step, hps, if_neg hg]

theorem ac_inv_step (st : AnswerCoordinator) (e : AcEvent) (h : ac_inv st) :
    ac_inv (ac_step st e).1 := by
  cases e with
  | vote opts caller =>
    intro p hp
    simp only [ac_step, Option.some.injEq] at hp
    rw [← hp]
    simp [ac_step]
  | response g res =>
    intro p hp
    rw [ac_step_response_last_generation]
    cases hps : st.pending_answer with
    | none =>
      rw [show (ac_step st (.response g res)).1 = st from by simp [ac_step, hps]] at hp
      exact h p hp
    | some q =>
      by_cases hg : g = q.generation_
      · rw [show (ac_step st (.response g res)).1.pending_answer = none from by
          simp [ac_step, hps, if_pos hg]] at hp
        simp at hp
      · rw [show (ac_step st (.response g res)).1 = st from by
          simp [ac_step, hps, if_neg hg]] at hp
        exact h p hp

theorem ac_inv_exec : ∀ (evs : List AcEvent) (st : AnswerCoordinator),
    ac_inv st → ac_inv (ac_exec st evs)
  | [], _, h => h
  | e :: es, st, h => ac_inv_exec es _ (ac_inv_step st e h)

/-- Number of vote events in a trace. -/
def count_votes : List AcEvent → Nat
  | [] => 0
  | .vote _ _ :: es => count_votes es + 1
  | .response _ _ :: es => count_votes es

theorem ac_issued_gens_eq : ∀ (evs : List AcEvent) (st : AnswerCoordinator),
    ac_issued_gens st evs = List.range' (st.last_generation + 1) (count_votes evs)
  | [], st => rfl
  | .vote opts caller :: es, st => by
    simp only [ac_issued_gens, ac_outputs, List.flatMap_cons, List.map_append,
      count_votes]
    have ih := ac_issued_gens_eq es (ac_step st (.vote opts caller)).1
    simp only [ac_issued_gens] at ih
    rw [ih]
    simp only [ac_step]
    rw [List.range'_succ]
    rfl
  | .response g res :: es, st => by
    have hiss : (ac_step st (.response g res)).2.issued = [] := by
      cases hps : st.pending_answer with
      | none => simp [ac_step, hps]
      | some q =>
        by_cases hg : g = q.generation_
        · simp [ac_step, hps, if_pos hg]
        · simp [ac_step, hps, if_neg hg]
    simp only [ac_issued_gens, ac_outputs, List.flatMap_cons, List.map_append,
      count_votes, hiss, List.map_nil, List.nil_append]
    have ih := ac_issued_gens_eq es (ac_step st (.response g res)).1
    simp only [ac_issued_gens] at ih
    rw [ih, ac_step_response_last_generation]

/-- C2: a vote request arriving while the coordinator of a poll is in state
Submitting(g') — i.e. with a pending answer p — allocates generation
g'+1 = p.generation_ + 1 (and carries p's callbacks forward); moreover, over
any trace of events from the initial state, the generations issued for the
poll are pairwise strictly increasing, hence never reused. -/
theorem poll_generation_allocation (evs : List AcEvent) (opts : List String)
    (caller : Nat) (p : PendingPollAnswer)
    (h : (ac_exec ac_init evs).pending_answer = some p) :
    (ac_step (ac_exec ac_init evs) (.vote opts caller)).1.pending_answer =
      some { options_ := opts, promises_ := p.promises_ ++ [caller],
             generation_ := p.generation_ + 1,
             log_event_id_ := (ac_exec ac_init evs).log_counter + 1 } ∧
      List.Pairwise (· < ·) (ac_issued_gens ac_init evs) := by
  constructor
  · have hg : p.generation_ = (ac_exec ac_init evs).last_generation :=
      ac_inv_exec evs ac_init ac_inv_init p h
    rw [hg]
    simp [ac_step, h]
  · rw [ac_issued_gens_eq]
    exact List.pairwise_lt_range' _ _

/-- Witness for C2: a second vote while generation 1 is in flight is
allocated generation 2. -/
theorem poll_generation_allocation_witness :
    (ac_step (ac_exec ac_init [.vote ["x"] 7]) (.vote ["y"] 8)).1.pending_answer =
      some { options_ := ["y"], promises_ := [7] ++ [8], generation_ := 1 + 1,
             log_event_id_ := (ac_exec ac_init [.vote ["x"] 7]).log_counter + 1 } ∧
      List.Pairwise (· < ·) (ac_issued_gens ac_init [.vote ["x"] 7]) :=
  poll_generation_allocation [.vote ["x"] 7] ["y"] 8
    { options_ := ["x"], promises_ := [7], generation_ := 1, log_event_id_ := 1 } rfl

/-- Modelled from the spec: replay of a surviving vote-intent recovery-log
entry at process restart (`on_binlog_events` re-issuing via
`do_set_poll_answer`, spec.md section 4.2): starting from a fresh
coordinator (`last_generation = 0`), the logged submission is re-issued
once, allocating generation 0 + 1 = 1 and keeping the logged entry
identifier, before any other operation is processed for the poll. -/
def ac_replay (opts : List String) (log_id : Nat) : AnswerCoordinator × StepOut :=
  let g := ac_init.last_generation + 1
  ({ pending_answer := some
       { options_ := opts, promises_ := [], generation_ := g,
         log_event_id_ := log_id },
     last_generation := g, log_counter := log_id },
   { resolved := [], issued := [(g, opts)], removed_log := [] })

/-- C3: replay of a surviving vote-intent log entry re-issues the logged
submission exactly once, as generation 1 for the poll, and every operation
processed afterwards uses a generation of at least 2 — so the replayed
submission comes before any other operation accepted for the poll. -/
theorem poll_replay_generation_one (opts : List String) (log_id : Nat)
    (evs : List AcEvent) (g : Nat)
    (hg : g ∈ ac_issued_gens (ac_replay opts log_id).1 evs) :
    (ac_replay opts log_id).2.issued = [(1, opts)] ∧ 2 ≤ g := by
  refine ⟨rfl, ?_⟩
  rw [ac_issued_gens_eq] at hg
  have h2 : (ac_replay opts log_id).1.last_generation = 1 := rfl
  rw [h2] at hg
  obtain ⟨i, _, rfl⟩ := List.mem_range'.mp hg
  omega

/-- Witness for C3: after replay, a fresh vote is issued as generation 2. -/
theorem poll_replay_generation_one_witness :
    (ac_replay ["z"] 42).2.issued = [(1, ["z"])] ∧
      2 ≤ 2 :=
  poll_replay_generation_one ["z"] 42 [.vote ["w"] 3] 2 (by decide)

/-! ## Poll store: server-snapshot ingestion, voter cache, limits, eviction -/

/-- Poll option record, mirroring `PollManager::PollOption`
(PollManager.h lines 97-107): display text, opaque server-assigned selector
payload `data`, voter count, whether the local user chose it. -/
structure PollOption where
  text : String
  data : String
  voter_count : Int
  is_chosen : Bool
deriving DecidableEq, Repr

/-- Poll record, mirroring the claim-relevant fields of `PollManager::Poll`
(PollManager.h lines 109-129). -/
structure Poll where
  question : String
  options : List PollOption
  total_voter_count : Int
  correct_option_id : Int
  is_closed : Bool
deriving DecidableEq, Repr

/-- Modelled from the spec: merging a server snapshot into the stored poll
(`on_get_poll`, spec.md section 4.1 "ingest"): when a pending answer with a
newer generation exists for the poll, the per-option is-chosen flags of the
local optimistic state are preserved while every other field adopts the
server snapshot's values; otherwise the server snapshot is applied
wholesale. -/
def ingest_server_snapshot (has_newer_pending : Bool)
    (localPoll serverPoll : Poll) : Poll :=
  if has_newer_pending then
    { serverPoll with
      options := List.zipWith
        (fun sOpt lOpt => { sOpt with is_chosen := lOpt.is_chosen })
        serverPoll.options localPoll.options }
  else
    serverPoll

theorem zipWith_chosen_map_chosen :
    ∀ (ss ls : List PollOption), ls.length = ss.length →
    (List.zipWith (fun sOpt lOpt => { sOpt with is_chosen := lOpt.is_chosen })
        ss ls).map (fun o => o.is_chosen) = ls.map (fun o => o.is_chosen)
  | [], [], _ => rfl
  | s :: ss, l :: ls, h => by
    simp only [List.zipWith_cons_cons, List.map_cons]
    rw [zipWith_chosen_map_chosen ss ls (by simpa using h)]

theorem zipWith_chosen_map_other {α : Type} (f : PollOption → α)
    (hf : ∀ (s l : PollOption), f { s with is_chosen := l.is_chosen } = f s) :
    ∀ (ss ls : List PollOption), ls.length = ss.length →
    (List.zipWith (fun sOpt lOpt => { sOpt with is_chosen := lOpt.is_chosen })
        ss ls).map f = ss.map f
  | [], [], _ => rfl
  | s :: ss, l :: ls, h => by
    simp only [List.zipWith_cons_cons, List.map_cons]
    rw [hf s l, zipWith_chosen_map_other f hf ss ls (by simpa using h)]

/-- C4: ingesting a server snapshot for a poll that has a pending answer
with a newer generation keeps the optimistic is-chosen flags of the local
options while the option texts, option payloads, option voter counts, the
total voter count and the closed flag all adopt the server snapshot's
values. -/
theorem poll_ingest_preserves_chosen (lp sp : Poll)
    (hlen : lp.options.length = sp.options.length) :
    (ingest_server_snapshot true lp sp).options.map (fun o => o.is_chosen) =
        lp.options.map (fun o => o.is_chosen) ∧
      (ingest_server_snapshot true lp sp).options.map (fun o => o.voter_count) =
        sp.options.map (fun o => o.voter_count) ∧
      (ingest_server_snapshot true lp sp).options.map (fun o => o.text) =
        sp.options.map (fun o => o.text) ∧
      (ingest_server_snapshot true lp sp).options.map (fun o => o.data) =
        sp.options.map (fun o => o.data) ∧
      (ingest_server_snapshot true lp sp).total_voter_count =
        sp.total_voter_count ∧
      (ingest_server_snapshot true lp sp).is_closed = sp.is_closed := by
  simp only [ingest_server_snapshot, if_pos rfl]
  refine ⟨zipWith_chosen_map_chosen sp.options lp.options hlen,
    zipWith_chosen_map_other (fun o => o.voter_count) (fun s l => rfl)
      sp.options lp.options hlen,
    zipWith_chosen_map_other (fun o => o.text) (fun s l => rfl)
      sp.options lp.options hlen,
    zipWith_chosen_map_other (fun o => o.data) (fun s l => rfl)
      sp.options lp.options hlen,
    rfl, rfl⟩

/-- Local poll used by the C4 witness: option chosen optimistically. -/
def c4_local_poll : Poll :=
  { question := "q",
    options := [{ text := "a", data := "pa", voter_count := 1, is_chosen := true }],
    total_voter_count := 1, correct_option_id := -1, is_closed := false }

/-- Server snapshot used by the C4 witness: fresher counts, not chosen. -/
def c4_server_poll : Poll :=
  { question := "q",
    options := [{ text := "a", data := "pa", voter_count := 7, is_chosen := false }],
    total_voter_count := 7, correct_option_id := -1, is_closed := true }

/-- Witness for C4 at a concrete pair of one-option polls. -/
theorem poll_ingest_preserves_chosen_witness :
    (ingest_server_snapshot true c4_local_poll c4_server_poll).options.map
        (fun o => o.is_chosen) =
        c4_local_poll.options.map (fun o => o.is_chosen) ∧
      (ingest_server_snapshot true c4_local_poll c4_server_poll).options.map
        (fun o => o.voter_count) =
        c4_server_poll.options.map (fun o => o.voter_count) ∧
      (ingest_server_snapshot true c4_local_poll c4_server_poll).options.map
        (fun o => o.text) =
        c4_server_poll.options.map (fun o => o.text) ∧
      (ingest_server_snapshot true c4_local_poll c4_server_poll).options.map
        (fun o => o.data) =
        c4_server_poll.options.map (fun o => o.data) ∧
      (ingest_server_snapshot true c4_local_poll c4_server_poll).total_voter_count =
        c4_server_poll.total_voter_count ∧
      (ingest_server_snapshot true c4_local_poll c4_server_poll).is_closed =
        c4_server_poll.is_closed :=
  poll_ingest_preserves_chosen c4_local_poll c4_server_poll rfl

/-- Voter-list cache entry, mirroring `PollManager::PollOptionVoters`
(PollManager.h lines 131-136): voters fetched so far, continuation cursor,
callers waiting on an in-flight fetch, and the invalidation flag. -/
structure PollOptionVoters where
  voter_user_ids : List Nat
  next_offset : String
  pending_queries : List Nat
  was_invalidated : Bool
deriving DecidableEq, Repr

/-- Modelled from the spec: `invalidate_poll_voters` (PollManager.h line 204,
spec.md section 4.3) marks every voter-cache entry of the poll
invalidated. -/
def invalidate_poll_voters (voters : List PollOptionVoters) :
    List PollOptionVoters :=
  voters.map (fun v => { v with was_invalidated := true })

/-- Modelled from the spec: applying an event that changes the option voter
counts of a poll — remote update or local optimistic mutation alike: if the
counts change, every voter-cache entry of the poll is invalidated
(spec.md section 3, invariants). -/
def apply_voter_count_change (voters : List PollOptionVoters)
    (old_counts new_counts : List Int) : List PollOptionVoters :=
  if new_counts ≠ old_counts then invalidate_poll_voters voters else voters

/-- Result of a voter-listing call on a cache entry. -/
inductive VotersListSource
  | serve_cached
  | fetch_network
deriving DecidableEq, Repr

/-- Modelled from the spec: a voter-listing call serves from the cache only
if the entry is not invalidated and the supplied cursor matches the stored
continuation; otherwise it fetches from the network (spec.md section
4.3). -/
def voters_list_source (entry : PollOptionVoters) (cursor : String) :
    VotersListSource :=
  if entry.was_invalidated = false ∧ cursor = entry.next_offset then
    .serve_cached
  else
    .fetch_network

/-- C5: whenever an event changes the option voter counts of a poll —
locally or remotely originated — every voter-cache entry of that poll is
marked invalidated, and every subsequent voter-listing call on any of those
entries fetches from the network instead of serving a cached page. -/
theorem poll_voter_cache_invalidation (voters : List PollOptionVoters)
    (old_counts new_counts : List Int) (h : new_counts ≠ old_counts) :
    (∀ v ∈ apply_voter_count_change voters old_counts new_counts,
        v.was_invalidated = true) ∧
      (∀ v ∈ apply_voter_count_change voters old_counts new_counts, ∀ cursor,
        voters_list_source v cursor = .fetch_network) := by
  have hstep : apply_voter_count_change voters old_counts new_counts =
      invalidate_poll_voters voters := by
    simp [apply_voter_count_change, h]
  constructor
  · intro v hv
    rw [hstep] at hv
    simp only [invalidate_poll_voters, List.mem_map] at hv
    obtain ⟨w, _, rfl⟩ := hv
    rfl
  · intro v hv cursor
    rw [hstep] at hv
    simp only [invalidate_poll_voters, List.mem_map] at hv
    obtain ⟨w, _, rfl⟩ := hv
    simp [voters_list_source]

/-- Witness for C5: one cached entry, voter counts changing from [0] to
[1]. -/
theorem poll_voter_cache_invalidation_witness :
    (∀ v ∈ apply_voter_count_change
        [{ voter_user_ids := [4], next_offset := "n", pending_queries := [],
           was_invalidated := false }] [0] [1],
        v.was_invalidated = true) ∧
      (∀ v ∈ apply_voter_count_change
          [{ voter_user_ids := [4], next_offset := "n", pending_queries := [],
             was_invalidated := false }] [0] [1], ∀ cursor,
        voters_list_source v cursor = .fetch_network) :=
  poll_voter_cache_invalidation
    [{ voter_user_ids := [4], next_offset := "n", pending_queries := [],
       was_invalidated := false }] [0] [1] (by decide)

/-- Poll-engine state for one poll: the stored poll record, the answer
coordinator, and the identifiers of pending recovery-log entries. -/
structure PollEngine where
  poll : Poll
  coord : AnswerCoordinator
  log_entries : List Nat
deriving DecidableEq, Repr

/-- Modelled from the spec: handling of a network response for a vote
submission at the orchestrator (`on_set_poll_answer` /
`on_set_poll_answer_finished`, spec.md section 4.2): the coordinator step is
applied, removed recovery-log entries are deleted, and the poll record is
not touched — in particular the optimistic mutation is not rolled back on a
remote error; the next refresh reconciles. -/
def engine_on_response (st : PollEngine) (g : Nat) (res : VoteOutcome) :
    PollEngine × StepOut :=
  let r := ac_step st.coord (.response g res)
  ({ poll := st.poll, coord := r.1,
     log_entries := st.log_entries.filter (fun l => !(r.2.removed_log.contains l)) },
   r.2)

/-- C6: when the remote call for the current generation of a pending vote
fails, the optimistically mutated poll record is left unchanged (no
rollback), every waiting callback is resolved with the error, the
recovery-log entry is removed, and the coordinator returns to Idle. -/
theorem poll_error_no_rollback (st : PollEngine) (p : PendingPollAnswer)
    (e : Nat) (h : st.coord.pending_answer = some p) :
    (engine_on_response st p.generation_ (.failure e)).1.poll = st.poll ∧
      (engine_on_response st p.generation_ (.failure e)).1.coord.pending_answer =
        none ∧
      (engine_on_response st p.generation_ (.failure e)).2.resolved =
        p.promises_.map (fun cb => (cb, p.generation_, VoteOutcome.failure e)) ∧
      (engine_on_response st p.generation_ (.failure e)).1.log_entries =
        st.log_entries.filter (fun l => !(l == p.log_event_id_)) := by
  refine ⟨rfl, ?_, ?_, ?_⟩
  · simp [engine_on_response, ac_step, h]
  · simp [engine_on_response, ac_step, h]
  · simp only [engine_on_response, ac_step, h, if_pos rfl, if_true]
    apply List.filter_congr
    intro x _
    simp only [List.contains, List.elem_eq_mem, List.mem_singleton]
    rw [Bool.beq_eq_decide_eq x p.log_event_id_]

/-- Pending answer used by the C6 witness. -/
def c6_pending : PendingPollAnswer :=
  { options_ := ["a"], promises_ := [9], generation_ := 1, log_event_id_ := 5 }

/-- Engine state used by the C6 witness. -/
def c6_engine : PollEngine :=
  { poll := c4_local_poll,
    coord := { pending_answer := some c6_pending, last_generation := 1,
               log_counter := 5 },
    log_entries := [5] }

/-- Witness for C6 at a concrete engine state with one waiting callback. -/
theorem poll_error_no_rollback_witness :
    (engine_on_response c6_engine c6_pending.generation_ (.failure 400)).1.poll =
        c6_engine.poll ∧
      (engine_on_response c6_engine c6_pending.generation_
          (.failure 400)).1.coord.pending_answer = none ∧
      (engine_on_response c6_engine c6_pending.generation_
          (.failure 400)).2.resolved =
        c6_pending.promises_.map
          (fun cb => (cb, c6_pending.generation_, VoteOutcome.failure 400)) ∧
      (engine_on_response c6_engine c6_pending.generation_
          (.failure 400)).1.log_entries =
        c6_engine.log_entries.filter (fun l => !(l == c6_pending.log_event_id_)) :=
  poll_error_no_rollback c6_engine c6_pending 400 rfl

/-- Constant `MAX_GET_POLL_VOTERS` from PollManager.h line 138: the
server-side limit of 50 voters per page. -/
def MAX_GET_POLL_VOTERS : Int := 50

/-- Modelled from the spec: the page size that `get_poll_voters` actually
requests from the server, capped client-side at `MAX_GET_POLL_VOTERS`
regardless of the limit the caller passed (spec.md sections 4.3 and 6). -/
def get_poll_voters_request_limit (limit : Int) : Int :=
  min limit MAX_GET_POLL_VOTERS

/-- C7: for every call to `get_poll_voters`, the page size actually
requested from the server never exceeds the server-side limit of 50 voters
per page, whatever limit the caller passed. -/
theorem poll_voters_page_size_capped (limit : Int) :
    get_poll_voters_request_limit limit ≤ 50 :=
  min_le_right limit MAX_GET_POLL_VOTERS

/-- Constant `UNLOAD_POLL_DELAY` from PollManager.h line 139: the eviction
delay, 600 seconds (ten minutes). -/
def UNLOAD_POLL_DELAY : Nat := 600

/-- Per-poll eviction state: number of message registrations across both
registration sets, whether the record is in memory, and the scheduled
eviction time, if any. -/
structure UnloadState where
  registrations : Nat
  in_memory : Bool
  unload_at : Option Nat
deriving DecidableEq, Repr

/-- Events seen by the eviction scheduler, each carrying the time at which
it happens. -/
inductive UnloadEvent
  | unregister (t : Nat)
  | register (t : Nat)
  | timer_fire (t : Nat)
deriving DecidableEq, Repr

/-- Modelled from the spec: the eviction scheduler (`schedule_poll_unload` /
`on_unload_poll_timeout`, spec.md section 4.4 "Eviction"): unregistering the
last registration schedules eviction after `UNLOAD_POLL_DELAY`; registering
cancels the scheduled eviction; the timer firing evicts only if it matches
the currently scheduled time (the freshness guard makes a stale firing a
no-op). -/
def unload_step (st : UnloadState) (e : UnloadEvent) : UnloadState :=
  match e with
  | .unregister t =>
    let r := st.registrations - 1
    if r = 0 then
      { st with registrations := r, unload_at := some (t + UNLOAD_POLL_DELAY) }
    else
      { st with registrations := r }
  | .register _ =>
    { st with registrations := st.registrations + 1, unload_at := none }
  | .timer_fire t =>
    match st.unload_at with
    | some u =>
      if t = u then { st with in_memory := false, unload_at := none } else st
    | none => st

/-- The eviction state after a list of events. -/
def unload_exec (st : UnloadState) : List UnloadEvent → UnloadState
  | [] => st
  | e :: es => unload_exec (unload_step st e) es

theorem unload_exec_early_fires (u : Nat) :
    ∀ (evs : List UnloadEvent) (st : UnloadState), st.unload_at = some u →
    (∀ e ∈ evs, ∃ t, e = .timer_fire t ∧ t < u) → unload_exec st evs = st
  | [], _, _, _ => rfl
  | e :: es, st, hu, hevs => by
    obtain ⟨t, rfl, ht⟩ := hevs e (by simp)
    have hstep : unload_step st (.timer_fire t) = st := by
      simp only [unload_step, hu]
      rw [if_neg (by omega)]
    simp only [unload_exec, hstep]
    exact unload_exec_early_fires u es st hu (fun e he => hevs e (by simp [he]))

/-- C8: after the last message registration of a poll is unregistered (at
time t0), eviction is scheduled for t0 + 600 seconds and the record stays in
memory; any timer firings strictly before t0 + 600 do not remove it; if no
re-registration happens, the firing at exactly t0 + 600 removes the record
from memory; and a re-registration during the delay cancels the scheduled
eviction, making any later firing a no-op. -/
theorem poll_unload_delay (st : UnloadState) (t0 t1 tf : Nat)
    (evs : List UnloadEvent) (hreg : st.registrations = 1)
    (hmem : st.in_memory = true)
    (hevs : ∀ e ∈ evs, ∃ t, e = .timer_fire t ∧ t < t0 + UNLOAD_POLL_DELAY) :
    (unload_step st (.unregister t0)).unload_at = some (t0 + 600) ∧
      (unload_step st (.unregister t0)).in_memory = true ∧
      (unload_exec (unload_step st (.unregister t0)) evs).in_memory = true ∧
      (unload_step (unload_exec (unload_step st (.unregister t0)) evs)
          (.timer_fire (t0 + 600))).in_memory = false ∧
      (unload_step (unload_step st (.unregister t0)) (.register t1)).unload_at =
        none ∧
      (unload_step (unload_step (unload_step st (.unregister t0)) (.register t1))
          (.timer_fire tf)).in_memory = true := by
  have hst1 : unload_step st (.unregister t0) =
      { st with registrations := 0, unload_at := some (t0 + UNLOAD_POLL_DELAY) } := by
    simp [unload_step, hreg]
  have hdelay : UNLOAD_POLL_DELAY = 600 := rfl
  have hexec : unload_exec (unload_step st (.unregister t0)) evs =
      unload_step st (.unregister t0) := by
    apply unload_exec_early_fires (t0 + UNLOAD_POLL_DELAY)
    · rw [hst1]
    · exact hevs
  refine ⟨by rw [hst1, hdelay], by rw [hst1]; exact hmem, ?_, ?_, ?_, ?_⟩
  · rw [hexec, hst1]
    exact hmem
  · rw [hexec, hst1]
    simp [unload_step, hdelay]
  · rw [hst1]
    simp [unload_step]
  · rw [hst1]
    simp [unload_step, hmem]

/-- Witness for C8: last unregistration at time 0, one early firing at time
599, eviction scheduled for 600; re-registration at 10 cancels, and a firing
at 600 after cancellation is a no-op. -/
theorem poll_unload_delay_witness :
    (unload_step { registrations := 1, in_memory := true, unload_at := none }
        (.unregister 0)).unload_at = some (0 + 600) ∧
      (unload_step { registrations := 1, in_memory := true, unload_at := none }
          (.unregister 0)).in_memory = true ∧
      (unload_exec (unload_step
            { registrations := 1, in_memory := true, unload_at := none }
            (.unregister 0)) [.timer_fire 599]).in_memory = true ∧
      (unload_step (unload_exec (unload_step
              { registrations := 1, in_memory := true, unload_at := none }
              (.unregister 0)) [.timer_fire 599])
          (.timer_fire (0 + 600))).in_memory = false ∧
      (unload_step (unload_step
            { registrations := 1, in_memory := true, unload_at := none }
            (.unregister 0)) (.register 10)).unload_at = none ∧
      (unload_step (unload_step (unload_step
              { registrations := 1, in_memory := true, unload_at := none }
              (.unregister 0)) (.register 10))
          (.timer_fire 600)).in_memory = true :=
  poll_unload_delay { registrations := 1, in_memory := true, unload_at := none }
    0 10 600 [.timer_fire 599] rfl rfl
    (fun e he => by
      simp only [List.mem_singleton] at he
      exact ⟨599, he, by decide⟩)
